import Mathlib

/-!
Verification of the fyp product-search repository: the hash-based embedder
(`scripts/generate-embeddings.mjs`), the catalog-wide embedding refresh loop
with its per-product error handling and keyed upsert, and the session/auth
module (`SDKServer.verifySession` / `SDKServer.authenticateRequest`).

JavaScript numbers are modelled as real numbers; JS strings as Lean strings
(character-wise, which agrees with UTF-16 code units on the inputs considered).
-/

namespace Fyp

/-! ## Embedder (`generateSimpleEmbedding`) -/

/-- JS `String.prototype.toLowerCase()`, modelled character-wise. -/
def jsToLower (s : String) : String := ⟨s.data.map Char.toLower⟩

/-- `charCodeAt(j)` for each position `j` of the string. -/
def charCodes (s : String) : List ℕ := s.data.map Char.toNat

/-- `const EMBEDDING_DIMENSION = 384`. -/
def EMBEDDING_DIMENSION : ℕ := 384

/-- JS `x || y` for a non-negative number `x`: `x` when truthy (nonzero), else `y`. -/
noncomputable def jsOr (x y : ℝ) : ℝ := if x = 0 then y else x

/-- The inner loop of `generateSimpleEmbedding`:
`value += normalizedText.charCodeAt(j) * Math.sin((i + 1) * (j + 1) * 0.01)`
over `j = 0 .. codes.length - 1`. -/
noncomputable def rawValue (codes : List ℕ) (i : ℕ) : ℝ :=
  (List.range codes.length).foldl
    (fun value j =>
      value + (codes.getD j 0 : ℝ) * Real.sin (((i : ℝ) + 1) * ((j : ℝ) + 1) * 0.01))
    0

/-- The `embedding` array before L2 normalization:
`embedding.push(Math.tanh(value * 0.001))` for `i = 0 .. 383`,
computed from `normalizedText = text.toLowerCase()`. -/
noncomputable def rawEmbedding (text : String) : List ℝ :=
  (List.range EMBEDDING_DIMENSION).map
    (fun i => Real.tanh (rawValue (charCodes (jsToLower text)) i * 0.001))

/-- `embedding.reduce((sum, val) => sum + val * val, 0)`. -/
noncomputable def sumSquares (v : List ℝ) : ℝ :=
  v.foldl (fun sum val => sum + val * val) 0

/-- `const magnitude = Math.sqrt(embedding.reduce((sum, val) => sum + val * val, 0))`. -/
noncomputable def magnitude (text : String) : ℝ :=
  Real.sqrt (sumSquares (rawEmbedding text))

/-- `generateSimpleEmbedding(text)`:
the raw tanh embedding, then `embedding.map(val => val / (magnitude || 1))`. -/
noncomputable def generateSimpleEmbedding (text : String) : List ℝ :=
  (rawEmbedding text).map (fun val => val / jsOr (magnitude text) 1)

/-- Euclidean norm of a vector stored as a list, for stating normalization facts. -/
noncomputable def l2norm (v : List ℝ) : ℝ := Real.sqrt (sumSquares v)

/-- Modelled from the spec: the whitespace-collapsing half of the spec's input
normalization ("case-folded, whitespace-collapsed"), which is absent from
`generateSimpleEmbedding` itself. Each whitespace character is replaced by a
plain space and maximal runs of whitespace are collapsed to a single space. -/
def collapseRuns : List Char → List Char
  | [] => []
  | [c] => [c]
  | a :: b :: rest =>
    if a.isWhitespace ∧ b.isWhitespace then collapseRuns (b :: rest)
    else a :: collapseRuns (b :: rest)

/-- Modelled from the spec: whitespace-collapsing on strings (see `collapseRuns`). -/
def collapseWhitespace (s : String) : String :=
  ⟨collapseRuns (s.data.map (fun c => if c.isWhitespace then ' ' else c))⟩

/-! ## Input-text assembly (`generateAllEmbeddings`, lines 69–88) -/

/-- A row of the `products` table as read by the refresh script, with the
`features` column already parsed to a list of strings (lines 69–80). The
columns that are nullable in `drizzle/schema.ts` are `Option`s. -/
structure ProductRow where
  id : ℕ
  title : Option String
  description : Option String
  category : Option String
  subcategory : Option String
  brand : Option String
  features : List String
deriving DecidableEq

/-- JS `array.filter(Boolean)` on an array of strings and nullish values:
keeps exactly the non-empty strings. -/
def jsFilterBoolean (l : List (Option String)) : List String :=
  l.filterMap (fun v =>
    match v with
    | none => none
    | some s => if s = "" then none else some s)

/-- JS `array.join(sep)`. -/
def jsJoin (sep : String) : List String → String
  | [] => ""
  | [s] => s
  | s :: t :: rest => s ++ sep ++ jsJoin sep (t :: rest)

/-- `textToEmbed`: `[title, description, category, subcategory, brand,
...features].filter(Boolean).join(" ")` (lines 81–88). -/
def textToEmbed (p : ProductRow) : String :=
  jsJoin " "
    (jsFilterBoolean
      ([p.title, p.description, p.category, p.subcategory, p.brand] ++ p.features.map some))

/-- Modelled from the spec: "Input text is assembled by concatenating, in order:
title, description, category, subcategory, brand, then each feature string,
skipping empty/missing fields, joined by single spaces." -/
def specAssembledText : List (Option String) → String
  | [] => ""
  | none :: rest => specAssembledText rest
  | some s :: rest =>
    if s = "" then specAssembledText rest
    else
      let r := specAssembledText rest
      if r = "" then s else s ++ " " ++ r

/-! ## Catalog refresh loop (`generateAllEmbeddings`, lines 51–115) -/

/-- A row of the `product_embeddings` table as written by the script:
the vector and the `textUsed` column (the other columns are the key,
a constant model name and timestamps). -/
structure EmbRow where
  embedding : List ℝ
  textUsed : String

/-- JS `String.prototype.slice(0, n)` for `0 ≤ n`. -/
def jsSliceTo (n : ℕ) (s : String) : String := ⟨s.data.take n⟩

/-- The values the script stores for one product: the embedding of
`textToEmbed` and `textToEmbed.slice(0, 1000)` as `textUsed` (lines 90–101). -/
noncomputable def mkEmbRow (p : ProductRow) : EmbRow :=
  { embedding := generateSimpleEmbedding (textToEmbed p)
    textUsed := jsSliceTo 1000 (textToEmbed p) }

/-- The `product_embeddings` table, as a list of rows tagged by `productId`. -/
abbrev EmbTable := List (ℕ × EmbRow)

/-- The `productId` column of a table state. -/
def keysOf (t : EmbTable) : List ℕ := t.map Prod.fst

/-- `INSERT ... ON DUPLICATE KEY UPDATE` against the unique `productId` key
(schema.ts line 56): when a row with this `productId` exists it is updated in
place, otherwise a new row is appended. -/
def upsertEmbedding (t : EmbTable) (pid : ℕ) (row : EmbRow) : EmbTable :=
  if pid ∈ keysOf t then t.map (fun e => if e.1 = pid then (pid, row) else e)
  else t ++ [(pid, row)]

/-- The mutable state of the refresh loop: the `success` and `failed`
counters and the table being written. -/
structure RefreshState where
  success : ℕ
  failed : ℕ
  table : EmbTable

/-- One iteration of the `for (const product of products)` loop: the `try`
block (text assembly, embedding, upsert — abstracted as the fallible
`embedStore` action) bumps `success`; the `catch` block bumps `failed` and
leaves the table as it was. -/
def processProduct (embedStore : ProductRow → EmbTable → Option EmbTable)
    (st : RefreshState) (p : ProductRow) : RefreshState :=
  match embedStore p st.table with
  | some t => { success := st.success + 1, failed := st.failed, table := t }
  | none => { success := st.success, failed := st.failed + 1, table := st.table }

/-- `generateAllEmbeddings`: fold the per-product step over the catalog. -/
def generateAllEmbeddings (embedStore : ProductRow → EmbTable → Option EmbTable)
    (products : List ProductRow) (st : RefreshState) : RefreshState :=
  products.foldl (processProduct embedStore) st

/-- The per-product action on a run where no failure occurs: embed the
assembled text and upsert the row keyed on `product.id`. -/
noncomputable def embedAndStore (p : ProductRow) (t : EmbTable) : Option EmbTable :=
  some (upsertEmbedding t p.id (mkEmbRow p))

/-- The table produced by one failure-free refresh over `products`. -/
noncomputable def runRefresh (t : EmbTable) (products : List ProductRow) : EmbTable :=
  (generateAllEmbeddings embedAndStore products ⟨0, 0, t⟩).table

/-- The table component of the failure-free refresh, written as a plain fold of
upserts (proved equal to `runRefresh` below). -/
noncomputable def tableAfter (t : EmbTable) : List ProductRow → EmbTable
  | [] => t
  | p :: ps => tableAfter (upsertEmbedding t p.id (mkEmbRow p)) ps

/-! ## Session verification and authentication (`SDKServer`) -/

/-- A JS value as found in a decoded JWT claim. -/
inductive JsVal where
  | str (s : String)
  | undef
  | num (n : Int)
deriving DecidableEq

/-- The three claims `verifySession` destructures from a verified JWT payload. -/
structure JwtPayload where
  openId : JsVal
  appId : JsVal
  name : JsVal
deriving DecidableEq

/-- The parts of `ENV` the session module reads; a falsy (unset) value is
modelled as the empty string. -/
structure Env where
  cookieSecret : String
  appId : String
deriving DecidableEq

/-- `SessionPayload`. -/
structure SessionPayload where
  openId : String
  appId : String
  name : String
deriving DecidableEq

/-- `isNonEmptyString`: a string value of positive length. -/
def isNonEmptyString : JsVal → Bool
  | .str s => decide (s ≠ "")
  | _ => false

/-- `getSessionSecret`: throws when `ENV.cookieSecret` is unset. -/
def getSessionSecret (env : Env) : Except String String :=
  if env.cookieSecret = "" then
    Except.error "JWT_SECRET is missing. Set JWT_SECRET in your .env to enable sessions."
  else Except.ok env.cookieSecret

/-- The payload checks of `verifySession` after a successful `jwtVerify`:
the three claims must be non-empty strings, and when `ENV.appId` is set the
token's `appId` must match it. -/
def verifySessionChecked (env : Env) (payload : JwtPayload) : Option SessionPayload :=
  match payload.openId, payload.appId, payload.name with
  | .str o, .str a, .str n =>
    if o = "" ∨ a = "" ∨ n = "" then none
    else if env.appId ≠ "" ∧ a ≠ env.appId then none
    else some { openId := o, appId := a, name := n }
  | _, _, _ => none

/-- The body of the `try` block of `verifySession`: obtain the secret
(which may throw), run the external `jwtVerify` (which may throw on an
invalid or expired token), then apply the payload checks; a thrown error
propagates out of the block. -/
def verifySessionAttempt (env : Env) (jwtVerify : String → String → Except String JwtPayload)
    (cookieValue : String) : Except String (Option SessionPayload) :=
  match getSessionSecret env with
  | Except.error e => Except.error e
  | Except.ok secret =>
    match jwtVerify cookieValue secret with
    | Except.error e => Except.error e
    | Except.ok payload => Except.ok (verifySessionChecked env payload)

/-- `verifySession` on a present cookie value: the empty string is falsy and
yields `null`; any exception from the `try` block is caught and yields
`null`. -/
def verifySessionSome (env : Env) (jwtVerify : String → String → Except String JwtPayload)
    (c : String) : Option SessionPayload :=
  if c = "" then none
  else
    match verifySessionAttempt env jwtVerify c with
    | Except.error _ => none
    | Except.ok r => r

/-- `verifySession`: a missing cookie value yields `null`. -/
def verifySession (env : Env) (jwtVerify : String → String → Except String JwtPayload) :
    Option String → Option SessionPayload
  | none => none
  | some c => verifySessionSome env jwtVerify c

/-- A row of the `users` table as far as `authenticateRequest` observes it. -/
structure UserRec where
  openId : String
  name : String
  role : String
deriving DecidableEq

/-- The record `authenticateRequest` passes to `db.upsertUser`. -/
structure UpsertUserArg where
  openId : String
  role : String
  lastSignedIn : ℕ
deriving DecidableEq

/-- A concrete token verifier used to instantiate the session theorems on
explicit inputs: one cookie that fails verification, one with a malformed
payload, one with a mismatched app id, and valid tokens otherwise. -/
def jwtVerifyFixture : String → String → Except String JwtPayload := fun c _ =>
  if c = "bad" then Except.error "boom"
  else if c = "mis" then Except.ok ⟨JsVal.str "u", JsVal.str "other", JsVal.str "nm"⟩
  else if c = "mal" then Except.ok ⟨JsVal.undef, JsVal.str "app", JsVal.str "nm"⟩
  else Except.ok ⟨JsVal.str "u", JsVal.str "app", JsVal.str "nm"⟩

/-- A concrete environment with a session secret and a configured app id. -/
def envFixture : Env := ⟨"sec", "app"⟩

/-- `authenticateRequest`: parse the cookie header (modelled as the parsed
association list), verify the session, load the user, then return the user
with role forced to `admin` together with the `db.upsertUser` argument, or
throw a `ForbiddenError`. -/
def authenticateRequest (env : Env) (jwtVerify : String → String → Except String JwtPayload)
    (cookieName : String) (cookies : List (String × String))
    (getUserByOpenId : String → Option UserRec) (now : ℕ) :
    Except String (UserRec × UpsertUserArg) :=
  match verifySession env jwtVerify (cookies.lookup cookieName) with
  | none => Except.error "Invalid session cookie"
  | some session =>
    match getUserByOpenId session.openId with
    | none => Except.error "User not found"
    | some user =>
      Except.ok ({ user with role := "admin" },
        { openId := user.openId, role := "admin", lastSignedIn := now })

/-! ## Basic lemmas about the embedder -/

theorem rawValue_nil (i : ℕ) : rawValue [] i = 0 := rfl

theorem length_rawEmbedding (t : String) : (rawEmbedding t).length = 384 := by
  simp [rawEmbedding, EMBEDDING_DIMENSION]

theorem rawEmbedding_empty : rawEmbedding "" = List.replicate EMBEDDING_DIMENSION 0 := by
  unfold rawEmbedding
  have h : ((List.range EMBEDDING_DIMENSION).map
      (fun i => Real.tanh (rawValue (charCodes (jsToLower "")) i * 0.001))) =
      (List.range EMBEDDING_DIMENSION).map (fun _ => (0 : ℝ)) := by
    refine List.map_congr_left ?_
    intro i _
    have hc : charCodes (jsToLower "") = [] := rfl
    rw [hc, rawValue_nil, zero_mul, Real.tanh_zero]
  rw [h]
  simp

theorem sumSquares_replicate_zero (n : ℕ) : sumSquares (List.replicate n 0) = 0 := by
  induction n with
  | zero => rfl
  | succ k ih => simpa [sumSquares, List.replicate_succ] using ih

theorem magnitude_empty : magnitude "" = 0 := by
  rw [magnitude, rawEmbedding_empty, sumSquares_replicate_zero, Real.sqrt_zero]

theorem jsOr_magnitude_pos (t : String) : 0 < jsOr (magnitude t) 1 := by
  unfold jsOr
  split
  · exact one_pos
  · rename_i h
    have h0 : 0 ≤ magnitude t := Real.sqrt_nonneg _
    exact lt_of_le_of_ne h0 (Ne.symm h)

/-! ## Lemmas about text assembly -/

theorem mem_jsFilterBoolean_ne_empty {l : List (Option String)} {s : String}
    (hs : s ∈ jsFilterBoolean l) : s ≠ "" := by
  unfold jsFilterBoolean at hs
  rw [List.mem_filterMap] at hs
  obtain ⟨a, -, ha⟩ := hs
  match a with
  | none => simp at ha
  | some u =>
    by_cases hu : u = "" <;> simp [hu] at ha
    rw [← ha]; exact hu

theorem jsJoin_cons_ne_empty (t : String) (ts : List String) (ht : t ≠ "") :
    jsJoin " " (t :: ts) ≠ "" := by
  match ts with
  | [] => simpa [jsJoin] using ht
  | u :: us =>
    intro hcontra
    have hlen := congrArg String.length hcontra
    rw [show jsJoin " " (t :: u :: us) = t ++ " " ++ jsJoin " " (u :: us) from rfl,
      String.length_append, String.length_append,
      show (" " : String).length = 1 from rfl, show ("" : String).length = 0 from rfl] at hlen
    omega

theorem jsJoin_filter_eq_spec (l : List (Option String)) :
    jsJoin " " (jsFilterBoolean l) = specAssembledText l := by
  induction l with
  | nil => rfl
  | cons a rest ih =>
    match a with
    | none => simpa [jsFilterBoolean, specAssembledText] using ih
    | some s =>
      by_cases hs : s = ""
      · subst hs
        simpa [jsFilterBoolean, specAssembledText] using ih
      · have hfb : jsFilterBoolean (some s :: rest) = s :: jsFilterBoolean rest := by
          simp [jsFilterBoolean, hs]
        rw [hfb]
        rw [specAssembledText]
        simp only [hs, if_false]
        rw [← ih]
        match hrest : jsFilterBoolean rest with
        | [] => simp [jsJoin]
        | u :: us =>
          have hu : u ≠ "" := mem_jsFilterBoolean_ne_empty (hrest ▸ List.mem_cons_self u us)
          have hne : jsJoin " " (u :: us) ≠ "" := jsJoin_cons_ne_empty u us hu
          simp [jsJoin, hne]

/-! ## Lemmas about the refresh loop -/

theorem processProduct_counts (embedStore : ProductRow → EmbTable → Option EmbTable)
    (st : RefreshState) (p : ProductRow) :
    (processProduct embedStore st p).success + (processProduct embedStore st p).failed =
      st.success + st.failed + 1 := by
  unfold processProduct
  match embedStore p st.table with
  | some t => simp; omega
  | none => simp; omega

theorem generateAllEmbeddings_counts (embedStore : ProductRow → EmbTable → Option EmbTable)
    (products : List ProductRow) (st : RefreshState) :
    (generateAllEmbeddings embedStore products st).success +
      (generateAllEmbeddings embedStore products st).failed =
      st.success + st.failed + products.length := by
  induction products generalizing st with
  | nil => simp [generateAllEmbeddings]
  | cons p ps ih =>
    have hstep := processProduct_counts embedStore st p
    have := ih (processProduct embedStore st p)
    simp only [generateAllEmbeddings, List.foldl_cons] at *
    rw [this, hstep, List.length_cons]
    omega

/-! ## Bounds and signs for the hash embedding -/

theorem tanh_lt_one_fyp (x : ℝ) : Real.tanh x < 1 := by
  rw [Real.tanh_eq_sinh_div_cosh, div_lt_one (Real.cosh_pos x)]
  have h := Real.cosh_sub_sinh x
  have hexp : 0 < Real.exp (-x) := Real.exp_pos _
  linarith

theorem neg_one_lt_tanh_fyp (x : ℝ) : -1 < Real.tanh x := by
  rw [Real.tanh_eq_sinh_div_cosh, lt_div_iff₀ (Real.cosh_pos x)]
  have h := Real.cosh_add_sinh x
  have hexp : 0 < Real.exp x := Real.exp_pos _
  linarith

theorem tanh_pos_of_pos {x : ℝ} (hx : 0 < x) : 0 < Real.tanh x := by
  rw [Real.tanh_eq_sinh_div_cosh]
  exact div_pos (Real.sinh_pos_iff.mpr hx) (Real.cosh_pos x)

theorem tanh_neg_of_neg {x : ℝ} (hx : x < 0) : Real.tanh x < 0 := by
  rw [Real.tanh_eq_sinh_div_cosh]
  exact div_neg_of_neg_of_pos (Real.sinh_neg_iff.mpr hx) (Real.cosh_pos x)

theorem rawValue_single (c i : ℕ) :
    rawValue [c] i = (c : ℝ) * Real.sin (((i : ℝ) + 1) * 0.01) := by
  unfold rawValue
  rw [show [c].length = 1 from rfl, show List.range 1 = [0] from rfl,
    List.foldl_cons, List.foldl_nil]
  norm_num

theorem rawValue_pair (c d i : ℕ) :
    rawValue [c, d] i = (c : ℝ) * Real.sin (((i : ℝ) + 1) * 0.01) +
      (d : ℝ) * Real.sin (((i : ℝ) + 1) * 2 * 0.01) := by
  unfold rawValue
  rw [show [c, d].length = 2 from rfl, show List.range 2 = [0, 1] from rfl,
    List.foldl_cons, List.foldl_cons, List.foldl_nil]
  norm_num

theorem charCodes_space : charCodes (jsToLower " ") = [32] := by decide

theorem charCodes_two_spaces : charCodes (jsToLower "  ") = [32, 32] := by decide

theorem rawEmbedding_getD (t : String) (i : ℕ) (hi : i < 384) :
    (rawEmbedding t).getD i 0 =
      Real.tanh (rawValue (charCodes (jsToLower t)) i * 0.001) := by
  unfold rawEmbedding EMBEDDING_DIMENSION
  rw [List.getD_eq_getElem?_getD, List.getElem?_map, List.getElem?_range hi]
  rfl

theorem generateSimpleEmbedding_getD (t : String) (i : ℕ) (hi : i < 384) :
    (generateSimpleEmbedding t).getD i 0 =
      (rawEmbedding t).getD i 0 / jsOr (magnitude t) 1 := by
  have hlen : i < (rawEmbedding t).length := by rw [length_rawEmbedding]; omega
  unfold generateSimpleEmbedding
  rw [List.getD_eq_getElem?_getD, List.getElem?_map, List.getElem?_eq_getElem hlen,
    List.getD_eq_getElem?_getD, List.getElem?_eq_getElem hlen]
  rfl

theorem sin_25_pos : 0 < Real.sin 2.5 := by
  apply Real.sin_pos_of_pos_of_lt_pi (by norm_num)
  have h := Real.pi_gt_three
  linarith

theorem sin_25_add_sin_5_neg : Real.sin 2.5 + Real.sin 5 < 0 := by
  have hpi3 : (3 : ℝ) < Real.pi := Real.pi_gt_three
  have hpi315 : Real.pi < 3.15 := Real.pi_lt_d2
  have ha : Real.pi - 2.5 ∈ Set.Icc (-(Real.pi / 2)) (Real.pi / 2) :=
    Set.mem_Icc.mpr ⟨by linarith, by linarith⟩
  have hb : 2 * Real.pi - 5 ∈ Set.Icc (-(Real.pi / 2)) (Real.pi / 2) :=
    Set.mem_Icc.mpr ⟨by linarith, by linarith⟩
  have hlt : Real.sin (Real.pi - 2.5) < Real.sin (2 * Real.pi - 5) :=
    Real.strictMonoOn_sin ha hb (by linarith)
  have e1 : Real.sin (Real.pi - 2.5) = Real.sin 2.5 := Real.sin_pi_sub 2.5
  have e2 : Real.sin (2 * Real.pi - 5) = -Real.sin 5 := Real.sin_two_pi_sub 5
  linarith

theorem raw_space_component_pos : 0 < (rawEmbedding " ").getD 249 0 := by
  rw [rawEmbedding_getD " " 249 (by norm_num), charCodes_space, rawValue_single]
  have harg : (((249 : ℕ) : ℝ) + 1) * 0.01 = 2.5 := by norm_num
  rw [harg]
  apply tanh_pos_of_pos
  have h := sin_25_pos
  nlinarith

theorem raw_two_spaces_component_neg : (rawEmbedding "  ").getD 249 0 < 0 := by
  rw [rawEmbedding_getD "  " 249 (by norm_num), charCodes_two_spaces, rawValue_pair]
  have h1 : (((249 : ℕ) : ℝ) + 1) * 0.01 = 2.5 := by norm_num
  have h2 : (((249 : ℕ) : ℝ) + 1) * 2 * 0.01 = 5 := by norm_num
  rw [h1, h2]
  apply tanh_neg_of_neg
  have h := sin_25_add_sin_5_neg
  nlinarith

theorem gen_space_component_pos : 0 < (generateSimpleEmbedding " ").getD 249 0 := by
  rw [generateSimpleEmbedding_getD " " 249 (by norm_num)]
  exact div_pos raw_space_component_pos (jsOr_magnitude_pos " ")

theorem gen_two_spaces_component_neg : (generateSimpleEmbedding "  ").getD 249 0 < 0 := by
  rw [generateSimpleEmbedding_getD "  " 249 (by norm_num)]
  exact div_neg_of_neg_of_pos raw_two_spaces_component_neg (jsOr_magnitude_pos "  ")

theorem rawEmbedding_space_ne_zero : rawEmbedding " " ≠ List.replicate 384 0 := by
  intro h
  have hpos := raw_space_component_pos
  rw [h] at hpos
  have hz : (List.replicate 384 (0 : ℝ)).getD 249 0 = 0 := by
    rw [List.getD_eq_getElem?_getD, List.getElem?_replicate]
    norm_num
  rw [hz] at hpos
  exact lt_irrefl 0 hpos

/-! ## Sum-of-squares lemmas for the normalization step -/

theorem foldl_add_sq (v : List ℝ) :
    ∀ a : ℝ, v.foldl (fun sum val => sum + val * val) a = a + (v.map (fun x => x * x)).sum := by
  induction v with
  | nil => intro a; simp
  | cons x xs ih =>
    intro a
    rw [List.foldl_cons, ih, List.map_cons, List.sum_cons]
    ring

theorem sumSquares_eq_sum_map (v : List ℝ) :
    sumSquares v = (v.map (fun x => x * x)).sum := by
  rw [sumSquares, foldl_add_sq, zero_add]

theorem sumSquares_nonneg (v : List ℝ) : 0 ≤ sumSquares v := by
  rw [sumSquares_eq_sum_map]
  apply List.sum_nonneg
  intro z hz
  obtain ⟨w, -, rfl⟩ := List.mem_map.mp hz
  exact mul_self_nonneg w

theorem sumSquares_eq_zero_forall {v : List ℝ} (h : sumSquares v = 0) :
    ∀ x ∈ v, x = 0 := by
  rw [sumSquares_eq_sum_map] at h
  induction v with
  | nil => simp
  | cons y ys ih =>
    rw [List.map_cons, List.sum_cons] at h
    have hy : 0 ≤ y * y := mul_self_nonneg y
    have hs : 0 ≤ (ys.map (fun x => x * x)).sum := by
      apply List.sum_nonneg
      intro z hz
      obtain ⟨w, -, rfl⟩ := List.mem_map.mp hz
      exact mul_self_nonneg w
    have hy0 : y * y = 0 := by linarith
    have hs0 : (ys.map (fun x => x * x)).sum = 0 := by linarith
    intro x hx
    rcases List.mem_cons.mp hx with rfl | hx'
    · exact mul_self_eq_zero.mp hy0
    · exact ih hs0 x hx'

theorem sum_sq_map_div (v : List ℝ) (m : ℝ) :
    ((v.map (fun x => x / m)).map (fun x => x * x)).sum =
      ((v.map (fun x => x * x)).sum) / (m * m) := by
  induction v with
  | nil => simp
  | cons x xs ih =>
    simp only [List.map_cons, List.sum_cons, ih, add_div, div_mul_div_comm]

/-! ## Claim theorems: C2, C3, C5, C7 -/

/-- C2: for every product row, the text passed to the embedder is assembled by
concatenating, in order, title, description, category, subcategory, brand,
then each feature string, skipping empty or missing fields, joined by single
spaces. -/
theorem C2_input_text_assembly (p : ProductRow) :
    textToEmbed p = specAssembledText
      ([p.title, p.description, p.category, p.subcategory, p.brand] ++ p.features.map some) :=
  jsJoin_filter_eq_spec _

/-- C3: for the empty input text the embedder returns the all-zero vector of
dimension 384 rather than failing, and the guarded L2-normalization divisor
`magnitude || 1` is always positive, so a zero-magnitude raw embedding never
divides by zero. -/
theorem C3_empty_text_default_zero_vector :
    generateSimpleEmbedding "" = List.replicate 384 0 ∧
    (∀ t : String, 0 < jsOr (magnitude t) 1) := by
  constructor
  · unfold generateSimpleEmbedding
    rw [rawEmbedding_empty, magnitude_empty]
    have h1 : jsOr 0 1 = 1 := by simp [jsOr]
    rw [h1, List.map_replicate]
    norm_num [EMBEDDING_DIMENSION]
  · exact jsOr_magnitude_pos

/-- C5: a failure while embedding or storing one product bumps the failure
count and skips that product (the table is left unchanged), a success bumps
the success count, and every product of the batch is processed exactly once
(the two counters always add up to the batch length), so the batch never
aborts because of a single product's failure. -/
theorem C5_batch_continues_past_failures :
    ∀ (embedStore : ProductRow → EmbTable → Option EmbTable)
      (products : List ProductRow) (st : RefreshState),
      ((generateAllEmbeddings embedStore products st).success +
        (generateAllEmbeddings embedStore products st).failed =
        st.success + st.failed + products.length) ∧
      (∀ (st' : RefreshState) (p : ProductRow),
        embedStore p st'.table = none →
          processProduct embedStore st' p =
            { success := st'.success, failed := st'.failed + 1, table := st'.table }) ∧
      (∀ (st' : RefreshState) (p : ProductRow) (t : EmbTable),
        embedStore p st'.table = some t →
          processProduct embedStore st' p =
            { success := st'.success + 1, failed := st'.failed, table := t }) := by
  intro embedStore products st
  refine ⟨generateAllEmbeddings_counts embedStore products st, ?_, ?_⟩
  · intro st' p h
    unfold processProduct
    rw [h]
  · intro st' p t h
    unfold processProduct
    rw [h]

/-- Witness for C5 at a concrete one-product batch whose store step fails. -/
theorem C5_batch_continues_past_failures_witness :
    ((generateAllEmbeddings (fun _ _ => none) [⟨1, some "t", none, none, none, none, []⟩]
        ⟨0, 0, []⟩).success +
      (generateAllEmbeddings (fun _ _ => none) [⟨1, some "t", none, none, none, none, []⟩]
        ⟨0, 0, []⟩).failed = 0 + 0 + 1) ∧
    processProduct (fun _ _ => none) ⟨0, 0, []⟩ ⟨1, some "t", none, none, none, none, []⟩ =
      { success := 0, failed := 0 + 1, table := [] } :=
  ⟨(C5_batch_continues_past_failures (fun _ _ => none)
      [⟨1, some "t", none, none, none, none, []⟩] ⟨0, 0, []⟩).1,
    (C5_batch_continues_past_failures (fun _ _ => none)
      [⟨1, some "t", none, none, none, none, []⟩] ⟨0, 0, []⟩).2.1
      ⟨0, 0, []⟩ ⟨1, some "t", none, none, none, none, []⟩ rfl⟩

/-- C7: every vector produced by the embedder has the same fixed length 384. -/
theorem C7_constant_vector_length (t : String) : (generateSimpleEmbedding t).length = 384 := by
  simp [generateSimpleEmbedding, rawEmbedding, EMBEDDING_DIMENSION]

/-! ## Claim C1: the embedder normalizes case but not whitespace -/

/-- C1 counterexample: the one-space and two-space texts are identical after
case-folding and whitespace-collapsing, yet `generateSimpleEmbedding` maps
them to different vectors (their components at index 249 have opposite
signs), refuting the claim as stated. -/
theorem C1_counterexample_whitespace :
    collapseWhitespace (jsToLower " ") = collapseWhitespace (jsToLower "  ") ∧
    generateSimpleEmbedding " " ≠ generateSimpleEmbedding "  " := by
  constructor
  · decide
  · intro h
    have h1 := gen_space_component_pos
    have h2 := gen_two_spaces_component_neg
    rw [h] at h1
    linarith

/-- C1 (amended): the embedder is a pure function of its case-folded (but not
whitespace-collapsed) input — any two texts identical after lowercasing get
identical output vectors. -/
theorem C1_pure_function_of_casefolded_text (s t : String)
    (h : jsToLower s = jsToLower t) :
    generateSimpleEmbedding s = generateSimpleEmbedding t := by
  unfold generateSimpleEmbedding magnitude rawEmbedding
  rw [h]

/-- Witness for the amended C1 at a concrete pair differing only in case. -/
theorem C1_pure_function_of_casefolded_text_witness :
    generateSimpleEmbedding "A b" = generateSimpleEmbedding "a B" :=
  C1_pure_function_of_casefolded_text "A b" "a B" (by decide)

/-! ## Claim C10: component bounds and exact normalization -/

/-- C10: every component of the raw hash-based embedding lies strictly in
(-1, 1) (it is a tanh value, with out-of-range reads defaulting to 0), and
after the final normalization the output vector has L2 norm exactly 1
whenever the raw embedding is nonzero, and norm 0 when the raw embedding is
the zero vector. -/
theorem C10_components_and_norm (t : String) :
    (∀ i : ℕ, -1 < (rawEmbedding t).getD i 0 ∧ (rawEmbedding t).getD i 0 < 1) ∧
    (rawEmbedding t ≠ List.replicate 384 0 → l2norm (generateSimpleEmbedding t) = 1) ∧
    (rawEmbedding t = List.replicate 384 0 → l2norm (generateSimpleEmbedding t) = 0) := by
  refine ⟨?_, ?_, ?_⟩
  · intro i
    by_cases hi : i < 384
    · rw [rawEmbedding_getD t i hi]
      exact ⟨neg_one_lt_tanh_fyp _, tanh_lt_one_fyp _⟩
    · have hlen : (rawEmbedding t).length ≤ i := by rw [length_rawEmbedding]; omega
      rw [List.getD_eq_default _ _ hlen]
      norm_num
  · intro hne
    have hS : sumSquares (rawEmbedding t) ≠ 0 := by
      intro h0
      apply hne
      exact List.eq_replicate_iff.mpr ⟨length_rawEmbedding t, sumSquares_eq_zero_forall h0⟩
    have hSpos : 0 < sumSquares (rawEmbedding t) :=
      lt_of_le_of_ne (sumSquares_nonneg _) (Ne.symm hS)
    have hmag : 0 < magnitude t := Real.sqrt_pos.mpr hSpos
    have hjs : jsOr (magnitude t) 1 = magnitude t := by
      unfold jsOr
      rw [if_neg (ne_of_gt hmag)]
    unfold l2norm generateSimpleEmbedding
    rw [hjs, sumSquares_eq_sum_map, sum_sq_map_div, ← sumSquares_eq_sum_map]
    have hmm : magnitude t * magnitude t = sumSquares (rawEmbedding t) :=
      Real.mul_self_sqrt (sumSquares_nonneg _)
    rw [hmm, div_self hS, Real.sqrt_one]
  · intro heq
    have hmag : magnitude t = 0 := by
      unfold magnitude
      rw [heq, sumSquares_replicate_zero, Real.sqrt_zero]
    have hjs : jsOr (magnitude t) 1 = 1 := by
      unfold jsOr
      rw [if_pos hmag]
    unfold l2norm generateSimpleEmbedding
    rw [hjs, heq, List.map_replicate, show (0 : ℝ) / 1 = 0 by norm_num,
      sumSquares_replicate_zero, Real.sqrt_zero]

/-- Witness for C10: the one-space text has a nonzero raw embedding and unit
output norm; the empty text has a zero raw embedding and zero output norm. -/
theorem C10_components_and_norm_witness :
    l2norm (generateSimpleEmbedding " ") = 1 ∧ l2norm (generateSimpleEmbedding "") = 0 :=
  ⟨(C10_components_and_norm " ").2.1 rawEmbedding_space_ne_zero,
    (C10_components_and_norm "").2.2 (by rw [rawEmbedding_empty]; rfl)⟩

/-! ## Lemmas about the keyed upsert and the refresh fold -/

theorem keysOf_upsert_of_mem {t : EmbTable} {pid : ℕ} (row : EmbRow)
    (h : pid ∈ keysOf t) : keysOf (upsertEmbedding t pid row) = keysOf t := by
  unfold upsertEmbedding
  rw [if_pos h]
  unfold keysOf
  rw [List.map_map]
  refine List.map_congr_left ?_
  intro e _
  by_cases hep : e.1 = pid
  · simp [Function.comp, hep]
  · simp [Function.comp, hep]

theorem keysOf_upsert_of_not_mem {t : EmbTable} {pid : ℕ} (row : EmbRow)
    (h : pid ∉ keysOf t) : keysOf (upsertEmbedding t pid row) = keysOf t ++ [pid] := by
  unfold upsertEmbedding
  rw [if_neg h]
  unfold keysOf
  rw [List.map_append]
  rfl

theorem mem_keysOf_upsert_self (t : EmbTable) (pid : ℕ) (row : EmbRow) :
    pid ∈ keysOf (upsertEmbedding t pid row) := by
  by_cases h : pid ∈ keysOf t
  · rw [keysOf_upsert_of_mem row h]; exact h
  · rw [keysOf_upsert_of_not_mem row h]
    exact List.mem_append_right _ (List.mem_singleton_self pid)

theorem mem_keysOf_upsert_of_mem {t : EmbTable} {q : ℕ} (pid : ℕ) (row : EmbRow)
    (h : q ∈ keysOf t) : q ∈ keysOf (upsertEmbedding t pid row) := by
  by_cases hp : pid ∈ keysOf t
  · rw [keysOf_upsert_of_mem row hp]; exact h
  · rw [keysOf_upsert_of_not_mem row hp]; exact List.mem_append_left _ h

theorem upsert_entry_self {t : EmbTable} {pid : ℕ} {row : EmbRow} {e : ℕ × EmbRow}
    (he : e ∈ upsertEmbedding t pid row) (hkey : e.1 = pid) : e = (pid, row) := by
  unfold upsertEmbedding at he
  split at he
  · obtain ⟨a, _, hfa⟩ := List.mem_map.mp he
    by_cases hap : a.1 = pid
    · rw [if_pos hap] at hfa; exact hfa.symm
    · rw [if_neg hap] at hfa; rw [← hfa] at hkey; exact absurd hkey hap
  · rename_i hnot
    rcases List.mem_append.mp he with h1 | h2
    · exfalso; apply hnot; rw [← hkey]; exact List.mem_map_of_mem Prod.fst h1
    · simpa using h2

theorem upsert_entry_other {t : EmbTable} {pid : ℕ} {row : EmbRow} {e : ℕ × EmbRow}
    (he : e ∈ upsertEmbedding t pid row) (hkey : e.1 ≠ pid) : e ∈ t := by
  unfold upsertEmbedding at he
  split at he
  · obtain ⟨a, ha, hfa⟩ := List.mem_map.mp he
    by_cases hap : a.1 = pid
    · rw [if_pos hap] at hfa; rw [← hfa] at hkey; simp at hkey
    · rw [if_neg hap] at hfa; rw [← hfa]; exact ha
  · rcases List.mem_append.mp he with h1 | h2
    · exact h1
    · exfalso
      apply hkey
      have h2' : e = (pid, row) := by simpa using h2
      rw [h2']

theorem upsert_noop {t : EmbTable} {pid : ℕ} {row : EmbRow}
    (hmem : pid ∈ keysOf t) (hall : ∀ e ∈ t, e.1 = pid → e = (pid, row)) :
    upsertEmbedding t pid row = t := by
  unfold upsertEmbedding
  rw [if_pos hmem]
  have hcong : ∀ e ∈ t, (if e.1 = pid then (pid, row) else e) = e := by
    intro e he
    by_cases hep : e.1 = pid
    · rw [if_pos hep]; exact (hall e he hep).symm
    · rw [if_neg hep]
  rw [List.map_congr_left hcong, List.map_id']

theorem keysOf_upsert_nodup {t : EmbTable} {pid : ℕ} (row : EmbRow)
    (h : (keysOf t).Nodup) : (keysOf (upsertEmbedding t pid row)).Nodup := by
  by_cases hp : pid ∈ keysOf t
  · rw [keysOf_upsert_of_mem row hp]; exact h
  · rw [keysOf_upsert_of_not_mem row hp, List.nodup_append]
    exact ⟨h, List.nodup_singleton pid, by simpa using hp⟩

theorem generateAllEmbeddings_table (products : List ProductRow) :
    ∀ st : RefreshState,
      (generateAllEmbeddings embedAndStore products st).table = tableAfter st.table products := by
  induction products with
  | nil => intro st; rfl
  | cons p ps ih =>
    intro st
    show (generateAllEmbeddings embedAndStore ps (processProduct embedAndStore st p)).table = _
    rw [ih]
    rfl

theorem tableAfter_key_mem {C : List ProductRow} {pid : ℕ} :
    ∀ t : EmbTable, pid ∈ keysOf t → pid ∈ keysOf (tableAfter t C) := by
  induction C with
  | nil => intro t h; exact h
  | cons q C' ih => intro t h; exact ih _ (mem_keysOf_upsert_of_mem _ _ h)

theorem tableAfter_entry_preserved {pid : ℕ} :
    ∀ C : List ProductRow, (∀ r ∈ C, r.id ≠ pid) →
      ∀ (t : EmbTable) (e : ℕ × EmbRow), e ∈ tableAfter t C → e.1 = pid → e ∈ t := by
  intro C
  induction C with
  | nil => intro _ t e he _; exact he
  | cons q C' ih =>
    intro hC t e he hkey
    have hq : q.id ≠ pid := hC q (List.mem_cons_self q C')
    have he' : e ∈ upsertEmbedding t q.id (mkEmbRow q) :=
      ih (fun r hr => hC r (List.mem_cons_of_mem q hr)) _ e he hkey
    exact upsert_entry_other he' (by rw [hkey]; exact Ne.symm hq)

theorem tableAfter_entries (C : List ProductRow) :
    ∀ t : EmbTable, (C.map (fun p => p.id)).Nodup →
      ∀ p ∈ C, p.id ∈ keysOf (tableAfter t C) ∧
        (∀ e ∈ tableAfter t C, e.1 = p.id → e = (p.id, mkEmbRow p)) := by
  induction C with
  | nil => intro t _ p hp; exact absurd hp (List.not_mem_nil p)
  | cons q C' ih =>
    intro t hnd p hp
    have h0 : (q.id :: C'.map (fun p => p.id)).Nodup := by simpa using hnd
    have hqnotin : q.id ∉ C'.map (fun p => p.id) := (List.nodup_cons.mp h0).1
    have hnd' : (C'.map (fun p => p.id)).Nodup := (List.nodup_cons.mp h0).2
    rcases List.mem_cons.mp hp with rfl | hp'
    · constructor
      · show p.id ∈ keysOf (tableAfter (upsertEmbedding t p.id (mkEmbRow p)) C')
        exact tableAfter_key_mem _ (mem_keysOf_upsert_self t p.id _)
      · intro e he hkey
        have hCne : ∀ r ∈ C', r.id ≠ p.id := by
          intro r hr hcontra
          exact hqnotin (by rw [← hcontra]; exact List.mem_map_of_mem _ hr)
        have he' : e ∈ upsertEmbedding t p.id (mkEmbRow p) :=
          tableAfter_entry_preserved C' hCne _ e he hkey
        exact upsert_entry_self he' hkey
    · exact ih _ hnd' p hp'

theorem tableAfter_noop (C : List ProductRow) :
    ∀ t : EmbTable,
      (∀ p ∈ C, p.id ∈ keysOf t ∧ ∀ e ∈ t, e.1 = p.id → e = (p.id, mkEmbRow p)) →
      tableAfter t C = t := by
  induction C with
  | nil => intro t _; rfl
  | cons q C' ih =>
    intro t h
    have hq := h q (List.mem_cons_self q C')
    have hup : upsertEmbedding t q.id (mkEmbRow q) = t := upsert_noop hq.1 hq.2
    show tableAfter (upsertEmbedding t q.id (mkEmbRow q)) C' = t
    rw [hup]
    exact ih t (fun p hp => h p (List.mem_cons_of_mem q hp))

theorem tableAfter_nodup (C : List ProductRow) :
    ∀ t : EmbTable, (keysOf t).Nodup → (keysOf (tableAfter t C)).Nodup := by
  induction C with
  | nil => intro t h; exact h
  | cons q C' ih => intro t h; exact ih _ (keysOf_upsert_nodup _ h)

/-! ## Claim C4: idempotent keyed upsert refresh -/

/-- C4: with catalog product ids unique (they come from the primary-key `id`
column) and the embedding table keyed without duplicates, re-running the
failure-free refresh is idempotent (the second run reproduces exactly the
first run's table, hence per-product embeddings and textUsed values),
the refresh never introduces a duplicate `productId` key, and an upsert
leaves every row of a different `productId` untouched. -/
theorem C4_refresh_idempotent_upsert (t : EmbTable) (C : List ProductRow)
    (hC : (C.map (fun p => p.id)).Nodup) (ht : (keysOf t).Nodup) :
    runRefresh (runRefresh t C) C = runRefresh t C ∧
    (keysOf (runRefresh t C)).Nodup ∧
    (∀ (pid : ℕ) (row : EmbRow) (e : ℕ × EmbRow),
      e ∈ upsertEmbedding t pid row → e.1 ≠ pid → e ∈ t) := by
  have hrr : ∀ s : EmbTable, runRefresh s C = tableAfter s C := fun s =>
    generateAllEmbeddings_table C ⟨0, 0, s⟩
  refine ⟨?_, ?_, ?_⟩
  · simp only [hrr]
    exact tableAfter_noop C (tableAfter t C) (fun p hp => tableAfter_entries C t hC p hp)
  · rw [hrr]; exact tableAfter_nodup C t ht
  · intro pid row e he hne
    exact upsert_entry_other he hne

/-- Witness for C4 at a concrete one-product catalog and the empty table. -/
theorem C4_refresh_idempotent_upsert_witness :
    (runRefresh (runRefresh [] [⟨1, some "t", none, none, none, none, []⟩])
        [⟨1, some "t", none, none, none, none, []⟩] =
      runRefresh [] [⟨1, some "t", none, none, none, none, []⟩]) ∧
    (keysOf (runRefresh [] [⟨1, some "t", none, none, none, none, []⟩])).Nodup ∧
    (∀ (pid : ℕ) (row : EmbRow) (e : ℕ × EmbRow),
      e ∈ upsertEmbedding [] pid row → e.1 ≠ pid → e ∈ ([] : EmbTable)) :=
  C4_refresh_idempotent_upsert [] [⟨1, some "t", none, none, none, none, []⟩]
    (by decide) (by decide)

/-! ## Claim C6: textUsed is the truncated embedded text -/

/-- C6 counterexample: for a product whose assembled text has 1001
characters, the stored `textUsed` (`textToEmbed.slice(0, 1000)`) differs
from the text that was embedded, refuting the claim that `textUsed` is the
exact embedded text. -/
theorem C6_counterexample_truncation :
    (mkEmbRow ⟨1, some (String.mk (List.replicate 1001 'a')), none, none, none, none, []⟩).textUsed ≠
      textToEmbed ⟨1, some (String.mk (List.replicate 1001 'a')), none, none, none, none, []⟩ := by
  have hne : String.mk (List.replicate 1001 'a') ≠ "" := by
    intro he
    have h1 : List.replicate 1001 'a' = ([] : List Char) := congrArg String.data he
    have h2 := congrArg List.length h1
    rw [List.length_replicate] at h2
    exact absurd h2 (by decide)
  have htext : textToEmbed ⟨1, some (String.mk (List.replicate 1001 'a')), none, none, none, none, []⟩
      = String.mk (List.replicate 1001 'a') := by
    unfold textToEmbed jsFilterBoolean
    simp [hne]
    rfl
  intro h
  rw [htext] at h
  have hslice : (mkEmbRow ⟨1, some (String.mk (List.replicate 1001 'a')), none, none, none, none,
      []⟩).textUsed = String.mk (List.replicate 1000 'a') := by
    show jsSliceTo 1000 (textToEmbed _) = _
    rw [htext]
    unfold jsSliceTo
    rw [show (String.mk (List.replicate 1001 'a')).data = List.replicate 1001 'a' from rfl,
      List.take_replicate]
    norm_num
  rw [hslice] at h
  have hdata : List.replicate 1000 'a' = List.replicate 1001 'a' := congrArg String.data h
  have hlen := congrArg List.length hdata
  rw [List.length_replicate, List.length_replicate] at hlen
  exact absurd hlen (by decide)

/-- C6 (amended): the stored `textUsed` is the embedded text truncated to its
first 1000 characters, and therefore equals the exact embedded text whenever
that text has at most 1000 characters. -/
theorem C6_textUsed_truncated (p : ProductRow) :
    (mkEmbRow p).textUsed = jsSliceTo 1000 (textToEmbed p) ∧
    ((textToEmbed p).data.length ≤ 1000 → (mkEmbRow p).textUsed = textToEmbed p) := by
  refine ⟨rfl, ?_⟩
  intro hlen
  show jsSliceTo 1000 (textToEmbed p) = textToEmbed p
  unfold jsSliceTo
  rw [List.take_of_length_le hlen]

/-- Witness for the amended C6 at a concrete short-text product. -/
theorem C6_textUsed_truncated_witness :
    (mkEmbRow ⟨1, some "t", none, none, none, none, []⟩).textUsed =
      textToEmbed ⟨1, some "t", none, none, none, none, []⟩ :=
  (C6_textUsed_truncated ⟨1, some "t", none, none, none, none, []⟩).2 (by decide)

/-! ## Lemmas about session verification -/

theorem verifySessionAttempt_ok {env : Env} {jwtv : String → String → Except String JwtPayload}
    {c : String} {r : Option SessionPayload}
    (h : verifySessionAttempt env jwtv c = Except.ok r) :
    ∃ payload, jwtv c env.cookieSecret = Except.ok payload ∧
      r = verifySessionChecked env payload := by
  unfold verifySessionAttempt getSessionSecret at h
  by_cases hsec : env.cookieSecret = ""
  · rw [if_pos hsec] at h
    simp at h
  · rw [if_neg hsec] at h
    have h2 : (match jwtv c env.cookieSecret with
        | Except.error e => Except.error e
        | Except.ok payload => Except.ok (verifySessionChecked env payload)) =
        Except.ok r := h
    cases hj : jwtv c env.cookieSecret with
    | error e =>
      rw [hj] at h2
      exact absurd h2 (by simp)
    | ok payload =>
      rw [hj] at h2
      exact ⟨payload, rfl, (Except.ok.inj h2).symm⟩

theorem verifySessionChecked_bad {env : Env} {payload : JwtPayload}
    (hbad : isNonEmptyString payload.openId = false ∨ isNonEmptyString payload.appId = false ∨
      isNonEmptyString payload.name = false) :
    verifySessionChecked env payload = none := by
  unfold verifySessionChecked
  obtain ⟨vo, va, vn⟩ := payload
  cases vo <;> cases va <;> cases vn <;> try rfl
  rename_i o a n
  simp [isNonEmptyString] at hbad
  have hcond : o = "" ∨ a = "" ∨ n = "" := hbad
  show (if o = "" ∨ a = "" ∨ n = "" then none
    else if env.appId ≠ "" ∧ a ≠ env.appId then none
    else some ({ openId := o, appId := a, name := n } : SessionPayload)) = none
  rw [if_pos hcond]

theorem verifySessionChecked_mismatch {env : Env} {payload : JwtPayload} {a : String}
    (hap : payload.appId = JsVal.str a) (hcfg : env.appId ≠ "") (hne : a ≠ env.appId) :
    verifySessionChecked env payload = none := by
  unfold verifySessionChecked
  obtain ⟨vo, va, vn⟩ := payload
  have hva : va = JsVal.str a := hap
  subst hva
  cases vo <;> cases vn <;> try rfl
  rename_i o n
  show (if o = "" ∨ a = "" ∨ n = "" then none
    else if env.appId ≠ "" ∧ a ≠ env.appId then none
    else some ({ openId := o, appId := a, name := n } : SessionPayload)) = none
  by_cases h1 : o = "" ∨ a = "" ∨ n = ""
  · rw [if_pos h1]
  · rw [if_neg h1, if_pos ⟨hcfg, hne⟩]

theorem verifySessionChecked_some {env : Env} {payload : JwtPayload} {p : SessionPayload}
    (h : verifySessionChecked env payload = some p) :
    p.openId ≠ "" ∧ p.appId ≠ "" ∧ p.name ≠ "" ∧ (env.appId ≠ "" → p.appId = env.appId) := by
  unfold verifySessionChecked at h
  obtain ⟨vo, va, vn⟩ := payload
  cases vo <;> cases va <;> cases vn <;> simp at h
  obtain ⟨⟨h1, h2, h3⟩, h4, h5⟩ := h
  rw [← h5]
  exact ⟨h1, h2, h3, h4⟩

/-! ## Claim C9: verifySession is total and validates its result -/

/-- C9: `verifySession` never throws — a missing cookie, an empty cookie,
an error from `jwtVerify` (invalid or expired token), or a malformed payload
all yield `null`; and when it does return a payload, its `openId`, `appId`
and `name` are non-empty strings and its `appId` equals the configured app
id whenever one is configured. -/
theorem C9_verifySession_never_throws (env : Env)
    (jwtv : String → String → Except String JwtPayload) :
    (verifySession env jwtv none = none) ∧
    (verifySession env jwtv (some "") = none) ∧
    (∀ c err, jwtv c env.cookieSecret = Except.error err →
      verifySession env jwtv (some c) = none) ∧
    (∀ c payload, jwtv c env.cookieSecret = Except.ok payload →
      (isNonEmptyString payload.openId = false ∨ isNonEmptyString payload.appId = false ∨
        isNonEmptyString payload.name = false) →
      verifySession env jwtv (some c) = none) ∧
    (∀ c payload a, jwtv c env.cookieSecret = Except.ok payload →
      payload.appId = JsVal.str a → env.appId ≠ "" → a ≠ env.appId →
      verifySession env jwtv (some c) = none) ∧
    (∀ c p, verifySession env jwtv (some c) = some p →
      p.openId ≠ "" ∧ p.appId ≠ "" ∧ p.name ≠ "" ∧
        (env.appId ≠ "" → p.appId = env.appId)) := by
  refine ⟨rfl, rfl, ?_, ?_, ?_, ?_⟩
  · intro c err herr
    show verifySessionSome env jwtv c = none
    unfold verifySessionSome
    by_cases hc : c = ""
    · rw [if_pos hc]
    · rw [if_neg hc]
      unfold verifySessionAttempt getSessionSecret
      by_cases hsec : env.cookieSecret = ""
      · rw [if_pos hsec]
      · rw [if_neg hsec]
        simp only [herr]
  · intro c payload hok hbad
    show verifySessionSome env jwtv c = none
    unfold verifySessionSome
    by_cases hc : c = ""
    · rw [if_pos hc]
    · rw [if_neg hc]
      unfold verifySessionAttempt getSessionSecret
      by_cases hsec : env.cookieSecret = ""
      · rw [if_pos hsec]
      · rw [if_neg hsec]
        simp only [hok]
        exact verifySessionChecked_bad hbad
  · intro c payload a hok hap hcfg hne
    show verifySessionSome env jwtv c = none
    unfold verifySessionSome
    by_cases hc : c = ""
    · rw [if_pos hc]
    · rw [if_neg hc]
      unfold verifySessionAttempt getSessionSecret
      by_cases hsec : env.cookieSecret = ""
      · rw [if_pos hsec]
      · rw [if_neg hsec]
        simp only [hok]
        exact verifySessionChecked_mismatch hap hcfg hne
  · intro c p hsome
    have hsome' : verifySessionSome env jwtv c = some p := hsome
    unfold verifySessionSome at hsome'
    by_cases hc : c = ""
    · rw [if_pos hc] at hsome'
      exact absurd hsome' (by simp)
    · rw [if_neg hc] at hsome'
      cases hatt : verifySessionAttempt env jwtv c with
      | error e =>
        rw [hatt] at hsome'
        exact absurd (hsome' : (none : Option SessionPayload) = some p) (by simp)
      | ok r =>
        rw [hatt] at hsome'
        obtain ⟨payload, -, hr⟩ := verifySessionAttempt_ok hatt
        have hrp : r = some p := hsome'
        rw [hr] at hrp
        exact verifySessionChecked_some hrp

/-- Witness for C9 at a concrete environment and token verifier, exercising
the missing-cookie, verification-error, malformed-payload, appId-mismatch
and successful cases. -/
theorem C9_verifySession_never_throws_witness :
    (verifySession envFixture jwtVerifyFixture none = none) ∧
    (verifySession envFixture jwtVerifyFixture (some "bad") = none) ∧
    (verifySession envFixture jwtVerifyFixture (some "mal") = none) ∧
    (verifySession envFixture jwtVerifyFixture (some "mis") = none) ∧
    ("u" ≠ "" ∧ "app" ≠ "" ∧ "nm" ≠ "" ∧
      (envFixture.appId ≠ "" → ("app" : String) = envFixture.appId)) :=
  ⟨(C9_verifySession_never_throws envFixture jwtVerifyFixture).1,
    (C9_verifySession_never_throws envFixture jwtVerifyFixture).2.2.1 "bad" "boom" rfl,
    (C9_verifySession_never_throws envFixture jwtVerifyFixture).2.2.2.1 "mal"
      ⟨JsVal.undef, JsVal.str "app", JsVal.str "nm"⟩ rfl (Or.inl rfl),
    (C9_verifySession_never_throws envFixture jwtVerifyFixture).2.2.2.2.1 "mis"
      ⟨JsVal.str "u", JsVal.str "other", JsVal.str "nm"⟩ "other" rfl rfl
      (by decide) (by decide),
    (C9_verifySession_never_throws envFixture jwtVerifyFixture).2.2.2.2.2 "tok"
      ⟨"u", "app", "nm"⟩ rfl⟩

/-! ## Claim C8: authenticateRequest forces the admin role -/

/-- C8: every request that `authenticateRequest` accepts yields a returned
user whose role is `admin` and a `db.upsertUser` argument with role `admin`,
regardless of the role previously stored for that user. -/
theorem C8_accepted_request_forces_admin (env : Env)
    (jwtv : String → String → Except String JwtPayload)
    (cookieName : String) (cookies : List (String × String))
    (getUserByOpenId : String → Option UserRec) (now : ℕ)
    (u : UserRec) (arg : UpsertUserArg)
    (h : authenticateRequest env jwtv cookieName cookies getUserByOpenId now =
      Except.ok (u, arg)) :
    u.role = "admin" ∧ arg.role = "admin" ∧ u.openId = arg.openId := by
  unfold authenticateRequest at h
  cases hv : verifySession env jwtv (cookies.lookup cookieName) with
  | none => rw [hv] at h; exact absurd h (by simp)
  | some s =>
    rw [hv] at h
    have h2 : (match getUserByOpenId s.openId with
        | none => Except.error "User not found"
        | some user =>
          Except.ok ({ openId := user.openId, name := user.name, role := "admin" },
            { openId := user.openId, role := "admin", lastSignedIn := now })) =
        Except.ok (u, arg) := h
    cases hg : getUserByOpenId s.openId with
    | none =>
      rw [hg] at h2
      exact absurd h2 (by simp)
    | some user =>
      rw [hg] at h2
      have hpair := Except.ok.inj h2
      have hu : u = { user with role := "admin" } := (congrArg Prod.fst hpair).symm
      have harg : arg = { openId := user.openId, role := "admin", lastSignedIn := now } :=
        (congrArg Prod.snd hpair).symm
      rw [hu, harg]
      exact ⟨rfl, rfl, rfl⟩

/-- Witness for C8 at a concrete request whose stored user has role `user`. -/
theorem C8_accepted_request_forces_admin_witness :
    ({ openId := "u1", name := "n", role := "admin" } : UserRec).role = "admin" ∧
    ({ openId := "u1", role := "admin", lastSignedIn := 0 } : UpsertUserArg).role = "admin" ∧
    ({ openId := "u1", name := "n", role := "admin" } : UserRec).openId =
      ({ openId := "u1", role := "admin", lastSignedIn := 0 } : UpsertUserArg).openId :=
  C8_accepted_request_forces_admin ⟨"sec", "app"⟩
    (fun _ _ => Except.ok ⟨.str "u1", .str "app", .str "nm"⟩) "session"
    [("session", "tok")] (fun _ => some ⟨"u1", "n", "user"⟩) 0
    ⟨"u1", "n", "admin"⟩ ⟨"u1", "admin", 0⟩ rfl

end Fyp
